import Mathlib

/-!
Verification of the microservice-commons Go library against its
natural-language specification.  Go code is shallowly embedded:
Go `int` (64-bit) is modelled as `Int` with an explicit two's-complement
wrap where overflow matters, Go strings as `String`, fallible
operations as `Option`, and `float64` arithmetic (used only in
`math.Ceil(float64(a)/float64(b))`) as exact rational arithmetic.
-/

namespace MicroCommons

/-! ## Go integer primitives -/

/-- Two's-complement wrap-around of a signed 64-bit Go `int`:
the value congruent mod 2^64 lying in `[-2^63, 2^63)`. -/
def wrap64 (z : Int) : Int :=
  (z + 2 ^ 63) % 2 ^ 64 - 2 ^ 63

/-- Value of a digit character, as in Go: `ch - '0'`. -/
def digitVal (c : Char) : Nat :=
  c.toNat - 48

/-- `math.MaxUint64`, the `maxVal` of Go `strconv.ParseUint` at bitSize 64. -/
def goMaxUint64 : Nat := 2 ^ 64 - 1

/-- The `cutoff` of Go `strconv.ParseUint` at base 10, bitSize 64:
`maxUint64/10 + 1`. -/
def goCutoff : Nat := goMaxUint64 / 10 + 1

/-- The digit-accumulation loop of Go `strconv.ParseUint` (base 10,
bitSize 64): per character, reject non-digits, reject when the
accumulator has reached `cutoff`, multiply-add in wrapping `uint64`
arithmetic and reject when the addition wrapped (`n1 < n`) or exceeded
`maxVal`.  Returns `none` on any syntax or range error. -/
def puLoop : List Char → Nat → Option Nat
  | [], n => some n
  | c :: cs, n =>
    if ¬ c.isDigit then none
    else if n ≥ goCutoff then none
    else
      let nm := n * 10 % 2 ^ 64
      let n1 := (nm + digitVal c) % 2 ^ 64
      if n1 < nm ∨ n1 > goMaxUint64 then none
      else puLoop cs n1

/-- Go `strconv.Atoi` (= `ParseInt(s, 10, 0)` with 64-bit `int`):
optional sign, then the `ParseUint` digit loop, then the signed-range
checks `!neg && un >= 1<<63` and `neg && un > 1<<63`.  `none` models a
non-nil error. -/
def goAtoi (s : String) : Option Int :=
  match s.data with
  | [] => none
  | c0 :: rest =>
    let neg := c0 = '-'
    let digits := if c0 = '-' ∨ c0 = '+' then rest else c0 :: rest
    if digits = [] then none
    else
      match puLoop digits 0 with
      | none => none
      | some un =>
        if ¬ neg ∧ un ≥ 2 ^ 63 then none
        else if neg ∧ un > 2 ^ 63 then none
        else some (if neg then -(un : Int) else (un : Int))

/-- Mathematical (unbounded) value of a decimal digit string, used to
state spec-level claims about what Go accepts. -/
def digitsNatVal (cs : List Char) : Nat :=
  cs.foldl (fun a c => a * 10 + digitVal c) 0

/-- Decimal accumulation of a digit list starting from `n`; the
`foldl` underlying both `digitsNatVal` and the loop invariants. -/
def valFrom (n : Nat) (cs : List Char) : Nat :=
  cs.foldl (fun a c => a * 10 + digitVal c) n

/-- Spec-level reading of a string as an unbounded decimal integer:
an optional sign followed by at least one digit.  No range restriction. -/
def decValue (s : String) : Option Int :=
  match s.data with
  | [] => none
  | c0 :: rest =>
    let neg := c0 = '-'
    let digits := if c0 = '-' ∨ c0 = '+' then rest else c0 :: rest
    if digits = [] then none
    else if digits.all Char.isDigit then
      some (if neg then -(digitsNatVal digits : Int) else (digitsNatVal digits : Int))
    else none

/-! ## responses/pagination.go -/

/-- Constant `DefaultPage` from responses/pagination.go. -/
def DefaultPage : Int := 1

/-- Constant `DefaultPageSize` from responses/pagination.go. -/
def DefaultPageSize : Int := 10

/-- Constant `MaxPageSize` from responses/pagination.go. -/
def MaxPageSize : Int := 100

/-! ### IEEE-754 binary64 model

`Paginated`, `PaginatedWithStatus`, `CreatePaginationMeta` and
`CalculateTotalPages` all compute
`int(math.Ceil(float64(total) / float64(pageSize)))` in `float64`
arithmetic.  Binary64 values are modelled as the rationals they denote
and every operation rounds its exact result to 53 significant bits,
to nearest with ties to even — exactly IEEE-754 round-to-nearest-even,
disregarding the exponent range (no overflow, infinities or
subnormals) and the implementation-defined out-of-range `int`
conversion, neither of which is reachable at the magnitudes an `int64`
`total` and a positive `int` `pageSize` produce here. -/

/-- Round a rational to the nearest integer, ties to even. -/
def rhe (x : ℚ) : Int :=
  if x - ⌊x⌋ < 1 / 2 then ⌊x⌋
  else if 1 / 2 < x - ⌊x⌋ then ⌊x⌋ + 1
  else if ⌊x⌋ % 2 = 0 then ⌊x⌋ else ⌊x⌋ + 1

/-- Round a positive rational to 53 significant bits (nearest, ties to
even): scale into `[2^52, 2^53)` by the power of two given by
`Int.log`, round the scaled mantissa to an integer, and scale back. -/
def round64Pos (q : ℚ) : ℚ :=
  (rhe (q / 2 ^ (Int.log 2 q - 52)) : ℚ) * 2 ^ (Int.log 2 q - 52)

/-- Round a rational to the nearest binary64 value (unbounded
exponent). -/
def round64 (q : ℚ) : ℚ :=
  if 0 < q then round64Pos q
  else if q < 0 then -round64Pos (-q)
  else 0

/-- Go `float64(z)`: the integer, correctly rounded to binary64. -/
def toFloat64 (z : Int) : ℚ := round64 (z : ℚ)

/-- Binary64 division: the exact quotient, correctly rounded. -/
def fdiv64 (x y : ℚ) : ℚ := round64 (x / y)

/-- Go `math.Ceil`: exact on binary64 values (the ceiling of a float
of magnitude below `2^52` is representable, and larger floats are
already integral). -/
def mathCeil (x : ℚ) : ℚ := (⌈x⌉ : ℚ)

/-- Go `int(f)`: truncation toward zero (defined only for in-range
values; out-of-range conversion is implementation-defined and not
modelled). -/
def floatToInt (x : ℚ) : Int :=
  if 0 ≤ x then ⌊x⌋ else -⌊-x⌋

/-- `int(math.Ceil(float64(total) / float64(pageSize)))` from
responses/pagination.go, computed in the binary64 model above. -/
def CalculateTotalPages (total pageSize : Int) : Int :=
  floatToInt (mathCeil (fdiv64 (toFloat64 total) (toFloat64 pageSize)))

/-- `PaginationMeta` struct from responses/pagination.go. -/
structure PaginationMeta where
  total : Int
  page : Int
  pageSize : Int
  totalPages : Int
  hasNext : Bool
  hasPrev : Bool
deriving Repr, DecidableEq

/-- `CreatePaginationMeta(total, page, pageSize)` from
responses/pagination.go. -/
def CreatePaginationMeta (total page pageSize : Int) : PaginationMeta :=
  { total := total
    page := page
    pageSize := pageSize
    totalPages := CalculateTotalPages total pageSize
    hasNext := decide (page < CalculateTotalPages total pageSize)
    hasPrev := decide (page > 1) }

/-- The `PaginationResponse` fields computed by `Paginated` (the `data`
payload and timestamp are orthogonal to the claims and carried by the
caller). -/
structure PaginationResponse where
  total : Int
  page : Int
  pageSize : Int
  totalPages : Int
  hasNext : Bool
  hasPrev : Bool
deriving Repr, DecidableEq

/-- `Paginated(c, data, total, page, pageSize)` from
responses/pagination.go: computes `totalPages` with `math.Ceil` and
sends HTTP 200 with the `PaginationResponse`.  Result is the pair
(status code, response fields). -/
def Paginated (total page pageSize : Int) : Int × PaginationResponse :=
  (200,
    { total := total
      page := page
      pageSize := pageSize
      totalPages := CalculateTotalPages total pageSize
      hasNext := decide (page < CalculateTotalPages total pageSize)
      hasPrev := decide (page > 1) })

/-- `PaginationParams` struct from responses/pagination.go. -/
structure PaginationParams where
  page : Int
  pageSize : Int
  offset : Int
  limit : Int
deriving Repr, DecidableEq

/-- `c.Query(key)`: first value of the query parameter, or `""` when
absent (gin semantics). -/
def goQuery (query : List (String × String)) (key : String) : String :=
  match query.find? (fun kv => kv.1 = key) with
  | some kv => kv.2
  | none => ""

/-- `getIntParam(c, key, defaultValue)` from responses/pagination.go:
empty parameter or `strconv.Atoi` failure yields the default. -/
def getIntParam (query : List (String × String)) (key : String) (defaultValue : Int) : Int :=
  let param := goQuery query key
  if param = "" then defaultValue
  else
    match goAtoi param with
    | none => defaultValue
    | some v => v

/-- `GetPaginationParams(c)` from responses/pagination.go: reads `page`
and `page_size`, applies the lower clamps to the defaults and the
upper clamp to `MaxPageSize`, and computes
`offset := (page - 1) * pageSize` in wrapping 64-bit `int` arithmetic. -/
def GetPaginationParams (query : List (String × String)) : PaginationParams :=
  let page0 := getIntParam query "page" DefaultPage
  let pageSize0 := getIntParam query "page_size" DefaultPageSize
  let page := if page0 < 1 then DefaultPage else page0
  let pageSize1 := if pageSize0 < 1 then DefaultPageSize else pageSize0
  let pageSize := if pageSize1 > MaxPageSize then MaxPageSize else pageSize1
  let offset := wrap64 ((page - 1) * pageSize)
  { page := page, pageSize := pageSize, offset := offset, limit := pageSize }

/-! ## types/pagination.go -/

/-- `PaginationRequest` struct from types/pagination.go. -/
structure PaginationRequest where
  page : Int
  pageSize : Int
  sortBy : String
  sortOrder : String
deriving Repr, DecidableEq

/-- `(p *PaginationRequest) Validate()` from types/pagination.go:
clamps `Page` to 1, `PageSize` into `[1, 100]`, `SortOrder` to
`"desc"` when not `"asc"`/`"desc"`, and always returns a nil error.
The mutated receiver is returned alongside the (always-`none`) error. -/
def paginationRequestValidate (p : PaginationRequest) : PaginationRequest × Option String :=
  let page := if p.page < 1 then 1 else p.page
  let pageSize0 := if p.pageSize < 1 then 10 else p.pageSize
  let pageSize := if pageSize0 > 100 then 100 else pageSize0
  let sortOrder := if p.sortOrder ≠ "asc" ∧ p.sortOrder ≠ "desc" then "desc" else p.sortOrder
  ({ page := page, pageSize := pageSize, sortBy := p.sortBy, sortOrder := sortOrder }, none)

/-! ## config (DatabaseConfig.Validate) -/

/-- `DatabaseConfig` struct from config/database.go. -/
structure DatabaseConfig where
  host : String
  port : String
  user : String
  password : String
  databaseName : String
  sslMode : String
  timeZone : String
  maxIdleConns : Int
  maxOpenConns : Int
  logLevel : String
deriving Repr, DecidableEq

/-- `(dc *DatabaseConfig) Validate()` from config/database.go: the
checks in source order; `some msg` models a non-nil error.  The
receiver is never written to, so the pure function returns only the
error. -/
def databaseConfigValidate (dc : DatabaseConfig) : Option String :=
  if dc.host = "" then some "database host is required"
  else if dc.port = "" then some "database port is required"
  else if (goAtoi dc.port).isNone then some "database port must be a number"
  else if dc.user = "" then some "database user is required"
  else if dc.password = "" then some "database password is required"
  else if dc.databaseName = "" then some "database name is required"
  else if dc.maxIdleConns < 0 then some "max idle connections cannot be negative"
  else if dc.maxOpenConns < 0 then some "max open connections cannot be negative"
  else if dc.maxOpenConns > 0 ∧ dc.maxIdleConns > dc.maxOpenConns then
    some "max idle connections cannot exceed max open connections"
  else none

/-! ## database (ConnectionManager.Connect retry loop) -/

/-- Result of one `Connect` run: the Go return value `(conn, err)`
modelled as `Except`, the number of `pgconnect.New` attempts made, and
the list of sleep durations performed, in order. -/
structure ConnectRun (α : Type) where
  result : Except (Nat × String) α
  attempts : Nat
  sleeps : List Int
deriving Repr

/-- The retry loop of `ConnectionManager.Connect`, from
database/connection.go: `for attempt := 1; attempt <= maxRetries;
attempt++`, dialing once per iteration, returning the connection on the
first success, sleeping `retryDelay` after a failure only when
`attempt < maxRetries`, and after the loop returning a nil connection
with an error naming `maxRetries` and wrapping the last dial error.
`dial k` is the outcome of the k-th `pgconnect.New(pgConfig)` call;
`remaining` counts the iterations still to run
(`remaining = maxRetries - attempt + 1`). -/
def connectLoop (dial : Nat → Except String α) (retryDelay : Int) (maxRetries : Nat) :
    Nat → Nat → String → ConnectRun α
  | _, 0, lastErr => { result := .error (maxRetries, lastErr), attempts := 0, sleeps := [] }
  | attempt, r + 1, _ =>
    match dial attempt with
    | .ok conn => { result := .ok conn, attempts := 1, sleeps := [] }
    | .error e =>
      if r = 0 then
        { result := .error (maxRetries, e), attempts := 1, sleeps := [] }
      else
        let rest := connectLoop dial retryDelay maxRetries (attempt + 1) r e
        { result := rest.result, attempts := rest.attempts + 1, sleeps := retryDelay :: rest.sleeps }

/-- `ConnectionManager.Connect` from database/connection.go, abstracted
over the dial outcomes and the environment-derived `maxRetries` and
`retryDelay`. -/
def connectionManagerConnect (dial : Nat → Except String α) (retryDelay : Int)
    (maxRetries : Nat) : ConnectRun α :=
  connectLoop dial retryDelay maxRetries 1 maxRetries ""

/-! ## middleware/healthy.go and server health routes -/

/-- A registered health check result; only the `Status` string matters
to the claims (`"healthy"`, `"unhealthy"`, `"degraded"`). -/
structure HealthCheck where
  name : String
  status : String
deriving Repr, DecidableEq

/-- The flag-accumulating loop of `determineOverallStatus` from
middleware/healthy.go: one pass over the checks setting
`hasUnhealthy` / `hasDegraded`. -/
def overallFlags (checks : List HealthCheck) : Bool × Bool :=
  checks.foldl
    (fun acc check =>
      if check.status = "unhealthy" then (true, acc.2)
      else if check.status = "degraded" then (acc.1, true)
      else acc)
    (false, false)

/-- `determineOverallStatus(checks)` from middleware/healthy.go:
`"healthy"` for an empty map, else `"unhealthy"` when any check is
unhealthy, else `"degraded"` when any is degraded, else `"healthy"`. -/
def determineOverallStatus (checks : List HealthCheck) : String :=
  if checks.length = 0 then "healthy"
  else
    let flags := overallFlags checks
    if flags.1 then "unhealthy"
    else if flags.2 then "degraded"
    else "healthy"

/-- `handleHealthCheck(c, config, detailed)` from
middleware/healthy.go: status starts `"healthy"`; when `detailed` and
checkers exist, the checks are run and the overall status computed;
HTTP 503 exactly for `"unhealthy"`, 200 otherwise.  `checkers` lists
the result each registered checker returns.  Result: (overall status,
HTTP status code). -/
def handleHealthCheck (checkers : List HealthCheck) (detailed : Bool) : String × Int :=
  let status :=
    if detailed ∧ checkers.length > 0 then determineOverallStatus checkers
    else "healthy"
  let code : Int := if status = "unhealthy" then 503 else 200
  (status, code)

/-- `HealthConfig` paths from middleware/healthy.go. -/
structure HealthConfig where
  healthPath : String
  readinessPath : String
  livenessPath : String
deriving Repr, DecidableEq

/-- `DefaultHealthConfig(serviceName, version)` path defaults from
middleware/healthy.go. -/
def DefaultHealthConfig : HealthConfig :=
  { healthPath := "/health", readinessPath := "/ready", livenessPath := "/live" }

/-- The dispatch switch of `HealthMiddleware(config)` from
middleware/healthy.go: the request paths the middleware handles itself
(all other paths fall through to `c.Next()`). -/
def healthMiddlewareHandles (config : HealthConfig) (path : String) : Bool :=
  path = config.healthPath ∨ path = config.readinessPath ∨ path = config.livenessPath

/-- The server options relevant to default route registration, from
server/options.go. -/
structure ServerOptions where
  disableHealth : Bool
  healthPath : String
deriving Repr, DecidableEq

/-- `DefaultServerOptions()` from server/options.go (health-relevant
fields). -/
def DefaultServerOptions : ServerOptions :=
  { disableHealth := false, healthPath := "/health" }

/-- `Server.setupHealthRoutes` from server/server.go: GETs at
`healthPath` (defaulted to `"/health"` when empty) and at
`healthPath + "/detailed"`. -/
def setupHealthRoutes (options : ServerOptions) : List String :=
  let healthPath := if options.healthPath = "" then "/health" else options.healthPath
  [healthPath, healthPath ++ "/detailed"]

/-- `Server.setupDefaultRoutes` from server/server.go: registers the
health routes unless `DisableHealth` is set. -/
def setupDefaultRoutes (options : ServerOptions) : List String :=
  if ¬ options.disableHealth then setupHealthRoutes options else []

/-! ## responses (JSON envelopes of success.go and errors.go)

`encoding/json` marshalling of the response structs is modelled field
by field: each struct field contributes its tag name, its value and its
`omitempty` flag, and marshalling keeps the fields whose value is not
an empty value (for the types that occur here: the empty string and
the nil interface; a `time.Time` struct is never empty). -/

/-- A Go value occurring in a response envelope field: a `string`, a
`time.Time`, or an `interface` value (`none` = nil interface) carrying
an arbitrary payload of type `α`. -/
inductive GoVal (α : Type) where
  | str (s : String)
  | time (t : Int)
  | iface (v : Option α)
deriving Repr, DecidableEq

/-- `encoding/json` `isEmptyValue` restricted to the value kinds above:
empty string and nil interface are empty, a `time.Time` struct never is. -/
def GoVal.isEmptyValue : GoVal α → Bool
  | .str s => s = ""
  | .time _ => false
  | .iface v => v.isNone

/-- Marshal a struct given as (tag name, value, omitempty) triples in
declaration order: a field is emitted unless it is `omitempty` and its
value is empty. -/
def marshalFields (fields : List (String × GoVal α × Bool)) : List (String × GoVal α) :=
  fields.filterMap
    (fun f => if f.2.2 ∧ (f.2.1).isEmptyValue then none else some (f.1, f.2.1))

/-- First marshalled value held by a JSON object key, `none` when the
key is absent. -/
def lookupField (key : String) (fields : List (String × GoVal α)) : Option (GoVal α) :=
  (fields.find? (fun f => f.1 = key)).map (fun f => f.2)

/-- A gin context value stored under a key: Go `interface` content,
either a `string` or some non-string value. -/
inductive GoAny where
  | str (s : String)
  | nonString
deriving Repr, DecidableEq

/-- The parts of a gin request context the response helpers read:
`c.Request.URL.Path` and the `c.Get` key store. -/
structure GinCtx where
  path : String
  keys : List (String × GoAny)
deriving Repr, DecidableEq

/-- `c.Get(key)`: the stored value and whether one exists. -/
def ctxGet (c : GinCtx) (key : String) : Option GoAny :=
  (c.keys.find? (fun kv => kv.1 = key)).map (fun kv => kv.2)

/-- The `request_id` extraction shared by the error helpers: the value
under `"request_id"` when it exists and the type assertion `.(string)`
succeeds, else the zero value `""`. -/
def requestIDOf (c : GinCtx) : String :=
  match ctxGet c "request_id" with
  | some (.str s) => s
  | _ => ""

/-- `Success(c, message, data)` from responses/success.go: HTTP 200
with the marshalled `SuccessResponse` whose tags are `message`,
`data,omitempty`, `timestamp`; `now` is the `time.Now().UTC()` instant. -/
def goSuccess (message : String) (data : Option α) (now : Int) :
    Int × List (String × GoVal α) :=
  (200,
    marshalFields
      [("message", .str message, false),
       ("data", .iface data, true),
       ("timestamp", .time now, false)])

/-- `Error(c, status, code, message)` from responses/errors.go: the
marshalled `ErrorResponse` (tags `error`, `code`, `details,omitempty`,
`timestamp`, `path,omitempty`, `request_id,omitempty`,
`metadata,omitempty`) with `Error = message`, `Code = code`,
`Timestamp = now`, `Path = c.Request.URL.Path`, `RequestID` from the
context, `Details` and `Metadata` left at their zero values. -/
def goError (c : GinCtx) (status : Int) (code message : String) (now : Int) :
    Int × List (String × GoVal α) :=
  (status,
    marshalFields
      [("error", .str message, false),
       ("code", .str code, false),
       ("details", .str "", true),
       ("timestamp", .time now, false),
       ("path", .str c.path, true),
       ("request_id", .str (requestIDOf c), true),
       ("metadata", .iface (none : Option α), true)])

/-- `APIError` struct from responses/errors.go. -/
structure APIError (α : Type) where
  statusCode : Int
  code : String
  message : String
  details : String
  metadata : Option α
deriving Repr, DecidableEq

/-- `HandleAPIError(c, err)` from responses/errors.go: responds with
`err.StatusCode` and the `ErrorResponse` built from the `APIError`
fields, the request path, the timestamp and the context request id. -/
def handleAPIError (c : GinCtx) (e : APIError α) (now : Int) :
    Int × List (String × GoVal α) :=
  (e.statusCode,
    marshalFields
      [("error", .str e.message, false),
       ("code", .str e.code, false),
       ("details", .str e.details, true),
       ("timestamp", .time now, false),
       ("path", .str c.path, true),
       ("request_id", .str (requestIDOf c), true),
       ("metadata", .iface e.metadata, true)])

/-! ## Concrete instances used by witnesses and counterexamples -/

/-- A gin context whose `request_id` key holds the empty string. -/
def ctxEmptyRid : GinCtx :=
  { path := "/x", keys := [("request_id", .str "")] }

/-- A gin context whose `request_id` key holds a normal id. -/
def ctxWithRid : GinCtx :=
  { path := "/api/items", keys := [("request_id", .str "abc123")] }

/-- A dial oracle whose second attempt succeeds. -/
def dialSecondOk : Nat → Except String Unit :=
  fun k => if k = 2 then .ok () else .error "connection refused"

/-- A database config whose port is a decimal integer too large for a
64-bit `int`; every other field passes its check. -/
def cfgPortOverflow : DatabaseConfig :=
  { host := "localhost", port := "99999999999999999999", user := "postgres"
    password := "postgres", databaseName := "db", sslMode := "disable"
    timeZone := "UTC", maxIdleConns := 10, maxOpenConns := 100, logLevel := "silent" }

/-- A database config that passes validation. -/
def cfgOk : DatabaseConfig :=
  { host := "localhost", port := "5432", user := "postgres"
    password := "postgres", databaseName := "db", sslMode := "disable"
    timeZone := "UTC", maxIdleConns := 10, maxOpenConns := 100, logLevel := "silent" }

/-! ## Theorems -/

/-- The flag-accumulating pass of `determineOverallStatus` computes
exactly the two `any`-style disjunctions, from any starting flags. -/
theorem overallFlags_foldl (checks : List HealthCheck) (b1 b2 : Bool) :
    checks.foldl
      (fun acc check =>
        if check.status = "unhealthy" then (true, acc.2)
        else if check.status = "degraded" then (acc.1, true)
        else acc)
      (b1, b2) =
    (b1 || checks.any (fun c => decide (c.status = "unhealthy")),
     b2 || checks.any (fun c => decide (c.status = "degraded"))) := by
  induction checks generalizing b1 b2 with
  | nil => simp
  | cons c cs ih =>
    simp only [List.foldl_cons, List.any_cons]
    by_cases h1 : c.status = "unhealthy"
    · simp [h1, ih]
    · by_cases h2 : c.status = "degraded"
      · simp [h1, h2, ih]
      · simp [h1, h2, ih]

/-- `determineOverallStatus` equals the if-chain over the two
disjunctions. -/
theorem determineOverallStatus_eq (checks : List HealthCheck) :
    determineOverallStatus checks =
      (if checks.any (fun c => decide (c.status = "unhealthy")) then "unhealthy"
       else if checks.any (fun c => decide (c.status = "degraded")) then "degraded"
       else "healthy") := by
  unfold determineOverallStatus overallFlags
  rw [overallFlags_foldl]
  rcases checks with _ | ⟨c, cs⟩
  · simp
  · simp

/-- C9: with registered checkers, the detailed health handler reports
`unhealthy` when any check is unhealthy, else `degraded` when any check
is degraded, else `healthy` (in particular for no checkers), and
responds 503 exactly for `unhealthy`, 200 otherwise. -/
theorem C9_detailed_health_status (checkers : List HealthCheck) :
    (handleHealthCheck checkers true).1 =
      (if checkers.any (fun c => decide (c.status = "unhealthy")) then "unhealthy"
       else if checkers.any (fun c => decide (c.status = "degraded")) then "degraded"
       else "healthy") ∧
    ((handleHealthCheck checkers true).2 = 503 ↔ (handleHealthCheck checkers true).1 = "unhealthy") ∧
    ((handleHealthCheck checkers true).2 = 200 ↔ (handleHealthCheck checkers true).1 ≠ "unhealthy") ∧
    (checkers = [] → (handleHealthCheck checkers true).1 = "healthy" ∧
      (handleHealthCheck checkers true).2 = 200) := by
  have hstat : (handleHealthCheck checkers true).1 =
      (if checkers.any (fun c => decide (c.status = "unhealthy")) then "unhealthy"
       else if checkers.any (fun c => decide (c.status = "degraded")) then "degraded"
       else "healthy") := by
    unfold handleHealthCheck
    rcases checkers with _ | ⟨c, cs⟩
    · simp
    · simp only [List.length_cons, true_and]
      rw [if_pos (by omega), determineOverallStatus_eq]
  refine ⟨hstat, ?_, ?_, ?_⟩
  · unfold handleHealthCheck
    split <;> rename_i h <;> simp_all
  · unfold handleHealthCheck
    split <;> rename_i h <;> simp_all
  · rintro rfl
    simp [handleHealthCheck]

/-- C3: the default health endpoints of the library cover `/health`,
`/health/detailed` (registered by `Server.setupHealthRoutes` under the
default options) and `/health`, `/ready`, `/live` (handled by
`HealthMiddleware` under `DefaultHealthConfig`); in particular each of
the four paths is served by one of the two default components. -/
theorem C3_default_endpoints :
    "/health" ∈ setupDefaultRoutes DefaultServerOptions ∧
    "/health/detailed" ∈ setupDefaultRoutes DefaultServerOptions ∧
    healthMiddlewareHandles DefaultHealthConfig "/health" = true ∧
    healthMiddlewareHandles DefaultHealthConfig "/ready" = true ∧
    healthMiddlewareHandles DefaultHealthConfig "/live" = true := by
  decide

/-- C10: `PaginationRequest.Validate` always returns a nil error, the
resulting request satisfies `Page ≥ 1`, `1 ≤ PageSize ≤ 100` and
`SortOrder ∈ {asc, desc}`, and every field that already satisfied its
constraint is left unchanged. -/
theorem C10_pagination_request_validate (p : PaginationRequest) :
    (paginationRequestValidate p).2 = none ∧
    1 ≤ (paginationRequestValidate p).1.page ∧
    1 ≤ (paginationRequestValidate p).1.pageSize ∧
    (paginationRequestValidate p).1.pageSize ≤ 100 ∧
    ((paginationRequestValidate p).1.sortOrder = "asc" ∨
      (paginationRequestValidate p).1.sortOrder = "desc") ∧
    (1 ≤ p.page → (paginationRequestValidate p).1.page = p.page) ∧
    (1 ≤ p.pageSize → p.pageSize ≤ 100 →
      (paginationRequestValidate p).1.pageSize = p.pageSize) ∧
    ((p.sortOrder = "asc" ∨ p.sortOrder = "desc") →
      (paginationRequestValidate p).1.sortOrder = p.sortOrder) ∧
    (paginationRequestValidate p).1.sortBy = p.sortBy := by
  unfold paginationRequestValidate
  refine ⟨rfl, ?_, ?_, ?_, ?_, ?_, ?_, ?_, rfl⟩ <;>
    simp only [] <;> split_ifs <;> simp_all <;> first | omega | tauto

/-- C10 witness: validation at a request violating every constraint. -/
theorem C10_witness :
    (paginationRequestValidate ⟨0, 200, "name", "up"⟩).2 = none ∧
    (paginationRequestValidate ⟨0, 200, "name", "up"⟩).1 = ⟨1, 100, "name", "desc"⟩ :=
  ⟨(C10_pagination_request_validate ⟨0, 200, "name", "up"⟩).1, by decide⟩

/-- C5 counterexample: `Success` with a nil data value emits only the
`message` and `timestamp` fields; the `data` field is omitted by its
`omitempty` tag, so the envelope does not contain exactly the three
claimed fields. -/
theorem C5_counterexample :
    (goSuccess (α := Unit) "ok" none 0).2.map Prod.fst = ["message", "timestamp"] ∧
    lookupField "data" (goSuccess (α := Unit) "ok" none 0).2 = none := by
  decide

/-- C5 (amended): `Success` responds with HTTP 200 and an envelope of
exactly the fields `message`, `data` and `timestamp` with the given
values when the data is non-nil, and of exactly `message` and
`timestamp` when the data is nil (the `data` field is tagged
`omitempty`). -/
theorem C5_success_envelope (α : Type) (message : String) (data : Option α) (now : Int) :
    (goSuccess message data now).1 = 200 ∧
    (goSuccess message data now).2 =
      (match data with
       | some v =>
         [("message", GoVal.str message), ("data", GoVal.iface (some v)),
          ("timestamp", GoVal.time now)]
       | none => [("message", GoVal.str message), ("timestamp", GoVal.time now)]) := by
  rcases data with _ | v <;>
    simp [goSuccess, marshalFields, GoVal.isEmptyValue, Option.isNone]

/-- C6: `HandleAPIError` responds with exactly the `APIError`'s status
code, and the envelope's `error` field equals the `APIError`'s message
and its `code` field equals the `APIError`'s code. -/
theorem C6_handle_api_error (α : Type) (c : GinCtx) (e : APIError α) (now : Int) :
    (handleAPIError c e now).1 = e.statusCode ∧
    lookupField "error" (handleAPIError c e now).2 = some (GoVal.str e.message) ∧
    lookupField "code" (handleAPIError c e now).2 = some (GoVal.str e.code) := by
  refine ⟨rfl, ?_, ?_⟩ <;>
    simp [handleAPIError, marshalFields, lookupField, List.find?]

/-- C4 counterexample: in a context whose `request_id` value is set to
the empty string, `Error` omits the `request_id` field (its
`omitempty` tag drops the empty string), although the claim requires
the field to equal the set value. -/
theorem C4_counterexample :
    (ctxGet ctxEmptyRid "request_id").isSome = true ∧
    lookupField "request_id" (goError (α := Unit) ctxEmptyRid 400 "bad_request" "oops" 0).2
      = none := by
  decide

/-- C4 (amended): for a request with a non-empty URL path, `Error`
responds with the given status and an envelope whose `error` field is
the message, `code` field is the code, `timestamp` field is the
current UTC instant, `path` field is the request URL path, and whose
`request_id` field equals the context's `request_id` value when one is
set to a non-empty string and is omitted otherwise (in particular when
set to the empty string or to a non-string value). -/
theorem C4_error_envelope (α : Type) (c : GinCtx) (status : Int) (code message : String)
    (now : Int) (hpath : c.path ≠ "") :
    (goError (α := α) c status code message now).1 = status ∧
    lookupField "error" (goError (α := α) c status code message now).2
      = some (GoVal.str message) ∧
    lookupField "code" (goError (α := α) c status code message now).2
      = some (GoVal.str code) ∧
    lookupField "timestamp" (goError (α := α) c status code message now).2
      = some (GoVal.time now) ∧
    lookupField "path" (goError (α := α) c status code message now).2
      = some (GoVal.str c.path) ∧
    lookupField "request_id" (goError (α := α) c status code message now).2
      = (match ctxGet c "request_id" with
         | some (GoAny.str s) => if s = "" then none else some (GoVal.str s)
         | _ => none) := by
  refine ⟨rfl, ?_, ?_, ?_, ?_, ?_⟩ <;>
    · unfold goError marshalFields lookupField requestIDOf
      rcases hrid : ctxGet c "request_id" with _ | v
      · simp [hrid, hpath, GoVal.isEmptyValue]
      · rcases v with s | _
        · by_cases hs : s = "" <;>
            simp [hrid, hs, hpath, GoVal.isEmptyValue]
        · simp [hrid, hpath, GoVal.isEmptyValue]

/-- C4 witness: the amended statement at a concrete context with path
`/api/items` and request id `abc123`. -/
theorem C4_witness :
    ctxWithRid.path ≠ "" ∧
    ((goError (α := Unit) ctxWithRid 404 "not_found" "missing" 5).1 = 404 ∧
     lookupField "error" (goError (α := Unit) ctxWithRid 404 "not_found" "missing" 5).2
       = some (GoVal.str "missing") ∧
     lookupField "code" (goError (α := Unit) ctxWithRid 404 "not_found" "missing" 5).2
       = some (GoVal.str "not_found") ∧
     lookupField "timestamp" (goError (α := Unit) ctxWithRid 404 "not_found" "missing" 5).2
       = some (GoVal.time 5) ∧
     lookupField "path" (goError (α := Unit) ctxWithRid 404 "not_found" "missing" 5).2
       = some (GoVal.str ctxWithRid.path) ∧
     lookupField "request_id" (goError (α := Unit) ctxWithRid 404 "not_found" "missing" 5).2
       = (match ctxGet ctxWithRid "request_id" with
          | some (GoAny.str s) => if s = "" then none else some (GoVal.str s)
          | _ => none)) :=
  ⟨by decide, C4_error_envelope Unit ctxWithRid 404 "not_found" "missing" 5 (by decide)⟩

/-- Behaviour of the retry loop from any starting attempt: with
`remaining ≥ 1` iterations left, between 1 and `remaining` dials are
made, every sleep is exactly `retryDelay` and there is one sleep per
failed non-final attempt, a returned connection is the one produced by
the last dial made with every earlier dial in the window failing, and
an error is returned only when every dial in the window failed, after
exactly `remaining` dials, reporting `maxRetries`. -/
theorem connectLoop_spec (dial : Nat → Except String α) (retryDelay : Int)
    (maxRetries : Nat) :
    ∀ remaining attempt lastErr, 1 ≤ remaining →
    1 ≤ (connectLoop dial retryDelay maxRetries attempt remaining lastErr).attempts ∧
    (connectLoop dial retryDelay maxRetries attempt remaining lastErr).attempts ≤ remaining ∧
    (connectLoop dial retryDelay maxRetries attempt remaining lastErr).sleeps =
      List.replicate
        ((connectLoop dial retryDelay maxRetries attempt remaining lastErr).attempts - 1)
        retryDelay ∧
    (∀ conn,
      (connectLoop dial retryDelay maxRetries attempt remaining lastErr).result = .ok conn →
      dial (attempt +
        (connectLoop dial retryDelay maxRetries attempt remaining lastErr).attempts - 1)
        = .ok conn ∧
      ∀ j, attempt ≤ j →
        j < attempt +
          (connectLoop dial retryDelay maxRetries attempt remaining lastErr).attempts - 1 →
        ∃ e, dial j = .error e) ∧
    (∀ me,
      (connectLoop dial retryDelay maxRetries attempt remaining lastErr).result = .error me →
      (connectLoop dial retryDelay maxRetries attempt remaining lastErr).attempts = remaining ∧
      (∀ j, attempt ≤ j → j < attempt + remaining → ∃ e, dial j = .error e) ∧
      me.1 = maxRetries) := by
  intro remaining
  induction remaining with
  | zero => intro attempt lastErr h; omega
  | succ r ih =>
    intro attempt lastErr _
    rcases hd : dial attempt with e | conn
    · by_cases hr0 : r = 0
      · subst hr0
        have hbase : connectLoop dial retryDelay maxRetries attempt (0 + 1) lastErr =
            { result := .error (maxRetries, e), attempts := 1, sleeps := [] } := by
          simp only [connectLoop, hd, if_true]
        rw [hbase]
        refine ⟨by simp, by simp, by simp, ?_, ?_⟩
        · intro conn hcon
          simp at hcon
        · intro me hme
          simp only at hme
          simp only [Except.error.injEq] at hme
          refine ⟨by simp, ?_, ?_⟩
          · intro j hj1 hj2
            have hj : j = attempt := by omega
            exact ⟨e, hj ▸ hd⟩
          · rw [← hme]
      · have hr1 : 1 ≤ r := by omega
        obtain ⟨iha1, iha2, ihs, ihok, iherr⟩ := ih (attempt + 1) e hr1
        have hstep : connectLoop dial retryDelay maxRetries attempt (r + 1) lastErr =
            { result := (connectLoop dial retryDelay maxRetries (attempt + 1) r e).result,
              attempts := (connectLoop dial retryDelay maxRetries (attempt + 1) r e).attempts + 1,
              sleeps := retryDelay ::
                (connectLoop dial retryDelay maxRetries (attempt + 1) r e).sleeps } := by
          simp only [connectLoop, hd]
          rw [if_neg hr0]
        rw [hstep]
        simp only
        refine ⟨by omega, by omega, ?_, ?_, ?_⟩
        · rw [ihs, Nat.add_sub_cancel]
          have hsucc : (connectLoop dial retryDelay maxRetries (attempt + 1) r e).attempts =
              ((connectLoop dial retryDelay maxRetries (attempt + 1) r e).attempts - 1) + 1 := by
            omega
          rw [hsucc, List.replicate_succ]
          rw [← hsucc]
        · intro conn hcon
          obtain ⟨hok1, hok2⟩ := ihok conn hcon
          constructor
          · have harith :
                attempt + ((connectLoop dial retryDelay maxRetries (attempt + 1) r e).attempts + 1) - 1 =
                attempt + 1 + (connectLoop dial retryDelay maxRetries (attempt + 1) r e).attempts - 1 := by
              omega
            rw [harith]
            exact hok1
          · intro j hj1 hj2
            rcases Nat.eq_or_lt_of_le hj1 with rfl | hj3
            · exact ⟨e, hd⟩
            · exact hok2 j (by omega) (by omega)
        · intro me hme
          obtain ⟨he1, he2, he3⟩ := iherr me hme
          refine ⟨by omega, ?_, he3⟩
          intro j hj1 hj2
          rcases Nat.eq_or_lt_of_le hj1 with rfl | hj3
          · exact ⟨e, hd⟩
          · exact he2 j (by omega) (by omega)
    · have hbase : connectLoop dial retryDelay maxRetries attempt (r + 1) lastErr =
          { result := .ok conn, attempts := 1, sleeps := [] } := by
        simp only [connectLoop, hd]
      rw [hbase]
      refine ⟨by simp, by simp, by simp, ?_, ?_⟩
      · intro c hc
        simp only [Except.ok.injEq] at hc
        subst hc
        refine ⟨?_, ?_⟩
        · have harith : attempt + 1 - 1 = attempt := by omega
          simp only [harith]
          exact hd
        · intro j hj1 hj2
          simp only at hj2
          omega
      · intro me hme
        simp at hme

/-- C2: for `maxRetries ≥ 1`, `ConnectionManager.Connect` makes at most
`maxRetries` dial attempts, sleeps the fixed `retryDelay` between every
pair of consecutive failed attempts (one sleep per non-final attempt,
all equal — no backoff or jitter), returns the connection with no
error as soon as an attempt succeeds (all earlier attempts having
failed), and returns an error only after all `maxRetries` attempts
failed, having slept exactly `maxRetries - 1` times. -/
theorem C2_connect_retry (dial : Nat → Except String α) (retryDelay : Int)
    (maxRetries : Nat) (h : 1 ≤ maxRetries) :
    (connectionManagerConnect dial retryDelay maxRetries).attempts ≤ maxRetries ∧
    (connectionManagerConnect dial retryDelay maxRetries).sleeps =
      List.replicate ((connectionManagerConnect dial retryDelay maxRetries).attempts - 1)
        retryDelay ∧
    (∀ conn, (connectionManagerConnect dial retryDelay maxRetries).result = .ok conn →
      dial (connectionManagerConnect dial retryDelay maxRetries).attempts = .ok conn ∧
      ∀ j, 1 ≤ j → j < (connectionManagerConnect dial retryDelay maxRetries).attempts →
        ∃ e, dial j = .error e) ∧
    (∀ me, (connectionManagerConnect dial retryDelay maxRetries).result = .error me →
      (connectionManagerConnect dial retryDelay maxRetries).attempts = maxRetries ∧
      (connectionManagerConnect dial retryDelay maxRetries).sleeps.length = maxRetries - 1 ∧
      (∀ j, 1 ≤ j → j ≤ maxRetries → ∃ e, dial j = .error e) ∧
      me.1 = maxRetries) := by
  obtain ⟨h1, h2, h3, h4, h5⟩ := connectLoop_spec dial retryDelay maxRetries maxRetries 1 "" h
  unfold connectionManagerConnect
  refine ⟨h2, h3, ?_, ?_⟩
  · intro conn hcon
    obtain ⟨hc1, hc2⟩ := h4 conn hcon
    constructor
    · have : 1 + (connectLoop dial retryDelay maxRetries 1 maxRetries "").attempts - 1 =
          (connectLoop dial retryDelay maxRetries 1 maxRetries "").attempts := by omega
      rw [← this]
      exact hc1
    · intro j hj1 hj2
      exact hc2 j hj1 (by omega)
  · intro me hme
    obtain ⟨he1, he2, he3⟩ := h5 me hme
    refine ⟨he1, ?_, ?_, he3⟩
    · rw [h3, List.length_replicate, he1]
    · intro j hj1 hj2
      exact he2 j hj1 (by omega)

/-- C2 witness: three allowed attempts against a dial oracle whose
second attempt succeeds. -/
theorem C2_witness :
    1 ≤ 3 ∧
    (connectionManagerConnect dialSecondOk 30 3).attempts ≤ 3 ∧
    (connectionManagerConnect dialSecondOk 30 3).attempts = 2 ∧
    (connectionManagerConnect dialSecondOk 30 3).sleeps = [30] :=
  ⟨by decide, (C2_connect_retry dialSecondOk 30 3 (by decide)).1, by decide, by decide⟩

/-- `rhe` is the identity on integers. -/
theorem rhe_intCast (n : Int) : rhe (n : ℚ) = n := by
  simp [rhe]

/-- `rhe` rounds to within half of one. -/
theorem rhe_sub_abs (x : ℚ) : |x - rhe x| ≤ 1 / 2 := by
  have hfl := Int.floor_le x
  have hfu := Int.lt_floor_add_one x
  unfold rhe
  split_ifs with h1 h2 h3 <;>
    (rw [abs_le]; constructor <;> push_cast <;> linarith)

/-- `rhe x` is an integer nearest to `x`. -/
theorem rhe_nearest (x : ℚ) (k : Int) : |x - rhe x| ≤ |x - k| := by
  have hfl := Int.floor_le x
  have hfu := Int.lt_floor_add_one x
  have hxk1 : x - (k : ℚ) ≤ |x - (k : ℚ)| := le_abs_self _
  have hxk2 : (k : ℚ) - x ≤ |x - (k : ℚ)| := by
    rw [abs_sub_comm]; exact le_abs_self _
  have habs0 : 0 ≤ |x - (k : ℚ)| := abs_nonneg _
  have hcase : (k : ℚ) ≤ (⌊x⌋ : ℚ) ∨ ((⌊x⌋ : ℚ) + 1 : ℚ) ≤ (k : ℚ) := by
    rcases le_or_lt k ⌊x⌋ with h | h
    · left; exact_mod_cast h
    · right; exact_mod_cast h
  unfold rhe
  split_ifs with h1 h2 h3 <;>
    (rcases hcase with hk | hk <;>
      (rw [abs_le]; constructor <;> push_cast <;> linarith))

/-- Rounding a positive rational to 53 bits moves it by at most half an
ulp, `2 ^ (Int.log 2 q - 53)`. -/
theorem round64Pos_abs (q : ℚ) :
    |q - round64Pos q| ≤ 2 ^ (Int.log 2 q - 53) := by
  set e : Int := Int.log 2 q - 52 with he
  have h2e : (0 : ℚ) < 2 ^ e := zpow_pos (by norm_num) e
  have hkey : q - round64Pos q = (q / 2 ^ e - rhe (q / 2 ^ e)) * 2 ^ e := by
    unfold round64Pos
    rw [← he]
    field_simp
    ring
  rw [hkey, abs_mul, abs_of_pos h2e]
  have hb := rhe_sub_abs (q / 2 ^ e)
  have hhalf : (2 : ℚ) ^ (Int.log 2 q - 53) = 1 / 2 * 2 ^ e := by
    rw [he]
    rw [show Int.log 2 q - 53 = (Int.log 2 q - 52) + (-1) by ring]
    rw [zpow_add₀ (by norm_num : (2 : ℚ) ≠ 0)]
    norm_num
    ring
  rw [hhalf]
  exact mul_le_mul_of_nonneg_right hb h2e.le

/-- `round64Pos q` is a nearest multiple of the scale `2 ^ (log q - 52)`. -/
theorem round64Pos_nearest (q : ℚ) (k : Int) :
    |q - round64Pos q| ≤ |q - (k : ℚ) * 2 ^ (Int.log 2 q - 52)| := by
  set e : Int := Int.log 2 q - 52 with he
  have h2e : (0 : ℚ) < 2 ^ e := zpow_pos (by norm_num) e
  have hkey : q - round64Pos q = (q / 2 ^ e - rhe (q / 2 ^ e)) * 2 ^ e := by
    unfold round64Pos
    rw [← he]
    field_simp
    ring
  have hkey2 : q - (k : ℚ) * 2 ^ e = (q / 2 ^ e - k) * 2 ^ e := by
    field_simp
    ring
  rw [hkey, hkey2, abs_mul, abs_mul, abs_of_pos h2e]
  exact mul_le_mul_of_nonneg_right (rhe_nearest (q / 2 ^ e) k) h2e.le

/-- Binary64 represents the integers of magnitude up to `2^53` exactly. -/
theorem round64_intCast (z : Int) (h0 : 0 ≤ z) (h53 : z ≤ 2 ^ 53) :
    round64 (z : ℚ) = z := by
  rcases eq_or_lt_of_le h0 with hz0 | hz
  · rw [← hz0]
    simp [round64]
  have hq : (0 : ℚ) < (z : ℚ) := by exact_mod_cast hz
  rw [round64, if_pos hq]
  set L := Int.log 2 ((z : ℚ)) with hL
  have hL0 : 0 ≤ L := by
    rw [hL]
    have h1 : ((2 : ℚ)) ^ (0 : Int) ≤ (z : ℚ) := by
      rw [zpow_zero]
      exact_mod_cast hz
    exact (Int.zpow_le_iff_le_log (by norm_num) hq).mp h1
  unfold round64Pos
  rw [← hL]
  by_cases hcase : z ≤ 2 ^ 53 - 1
  · have hlt : (z : ℚ) < (2 : ℚ) ^ (53 : Int) := by
      have h1 : (z : ℚ) < ((2 ^ 53 : Int) : ℚ) := by exact_mod_cast (by omega : z < 2 ^ 53)
      calc (z : ℚ) < ((2 ^ 53 : Int) : ℚ) := h1
        _ = (2 : ℚ) ^ (53 : Int) := by push_cast; norm_num
    have hL52 : L ≤ 52 := by
      have h2 := (Int.lt_zpow_iff_log_lt (by norm_num : 1 < 2) hq).mp hlt
      rw [← hL] at h2
      omega
    set k : ℕ := (52 - L).toNat with hk
    have hdiv : (z : ℚ) / 2 ^ (L - 52) = ((z * 2 ^ k : Int) : ℚ) := by
      rw [div_eq_iff (by positivity : ((2 : ℚ) ^ (L - 52)) ≠ 0)]
      push_cast
      rw [mul_assoc]
      rw [show ((2 : ℚ)) ^ (k : ℕ) = (2 : ℚ) ^ ((k : ℕ) : Int) from (zpow_natCast _ _).symm]
      rw [← zpow_add₀ (by norm_num : (2 : ℚ) ≠ 0)]
      rw [show ((k : ℕ) : Int) + (L - 52) = 0 by omega]
      norm_num
    rw [hdiv, rhe_intCast]
    push_cast
    rw [mul_assoc]
    rw [show ((2 : ℚ)) ^ (k : ℕ) = (2 : ℚ) ^ ((k : ℕ) : Int) from (zpow_natCast _ _).symm]
    rw [← zpow_add₀ (by norm_num : (2 : ℚ) ≠ 0)]
    rw [show ((k : ℕ) : Int) + (L - 52) = 0 by omega]
    norm_num
  · have hz53 : z = 2 ^ 53 := by omega
    subst hz53
    have h2x : ((2 : ℚ)) ^ (53 : Int) ≤ ((2 ^ 53 : Int) : ℚ) := by push_cast; norm_num
    have hupper : ((2 ^ 53 : Int) : ℚ) < (2 : ℚ) ^ (54 : Int) := by push_cast; norm_num
    have hL53 : L = 53 := by
      have h1 := (Int.zpow_le_iff_le_log (by norm_num : 1 < 2) hq).mp h2x
      have h2 := (Int.lt_zpow_iff_log_lt (by norm_num : 1 < 2) hq).mp hupper
      rw [← hL] at h1 h2
      omega
    rw [hL53]
    have hdiv : ((2 ^ 53 : Int) : ℚ) / 2 ^ ((53 : Int) - 52) = ((2 ^ 52 : Int) : ℚ) := by
      push_cast
      norm_num
    rw [hdiv, rhe_intCast]
    push_cast
    norm_num

/-- The ceiling survives the rounded division: for `0 ≤ a ≤ 2^53` and
`b ≥ 1`, the correctly rounded binary64 quotient `a / b` has the same
ceiling as the exact quotient (rounding never crosses an integer:
downward crossings would need the quotient within half an ulp above an
integer, impossible for `a ≤ 2^53`, and upward crossings stop at the
representable ceiling itself). -/
theorem ceil_round64_div (a b : Int) (ha0 : 0 ≤ a) (ha : a ≤ 2 ^ 53)
    (hb1 : 1 ≤ b) :
    ⌈round64 ((a : ℚ) / (b : ℚ))⌉ = ⌈(a : ℚ) / (b : ℚ)⌉ := by
  have hbq : (0 : ℚ) < (b : ℚ) := by exact_mod_cast hb1
  set q := (a : ℚ) / (b : ℚ) with hqdef
  have hqa : q ≤ (a : ℚ) := div_le_self (by exact_mod_cast ha0) (by exact_mod_cast hb1)
  have hq0le : (0 : ℚ) ≤ q := div_nonneg (by exact_mod_cast ha0) hbq.le
  by_cases hint : ∃ w : Int, (w : ℚ) = q
  · obtain ⟨w, hw⟩ := hint
    have hw0 : 0 ≤ w := by
      have h1 : (0 : ℚ) ≤ (w : ℚ) := hw ▸ hq0le
      exact_mod_cast h1
    have hw53 : w ≤ 2 ^ 53 := by
      have h1 : (w : ℚ) ≤ ((2 ^ 53 : Int) : ℚ) := by
        rw [hw]
        exact hqa.trans (by exact_mod_cast ha)
      exact_mod_cast h1
    rw [← hw, round64_intCast w hw0 hw53]
  · have ha1 : 1 ≤ a := by
      rcases eq_or_lt_of_le ha0 with h | h
      · exfalso
        exact hint ⟨0, by rw [hqdef, ← h]; simp⟩
      · omega
    have hq0 : 0 < q := div_pos (by exact_mod_cast ha1) hbq
    set L := Int.log 2 q with hL
    set c := ⌈q⌉ with hc
    have hqc : q ≤ (c : ℚ) := Int.le_ceil q
    have hcq1 : (c : ℚ) - 1 < q := by
      have := Int.ceil_lt_add_one q
      rw [← hc] at this
      linarith
    have hc1 : 1 ≤ c := by
      rw [hc]
      exact_mod_cast Int.ceil_pos.mpr hq0
    have hq53 : q < (2 : ℚ) ^ (53 : Int) := by
      have h1 : q ≤ ((2 ^ 53 : Int) : ℚ) := hqa.trans (by exact_mod_cast ha)
      have h2 : ((2 ^ 53 : Int) : ℚ) = (2 : ℚ) ^ (53 : Int) := by push_cast; norm_num
      rcases eq_or_lt_of_le h1 with h | h
      · exact absurd ⟨2 ^ 53, by rw [← h]⟩ hint
      · rw [← h2]; exact h
    have hL52 : L ≤ 52 := by
      have h2 := (Int.lt_zpow_iff_log_lt (by norm_num : 1 < 2) hq0).mp hq53
      rw [← hL] at h2
      omega
    have h2L : (2 : ℚ) ^ L ≤ q := by
      have := Int.zpow_log_le_self (by norm_num : 1 < 2) hq0
      rw [← hL] at this
      exact this
    set kk : ℕ := (52 - L).toNat with hkk
    have hcmul : ((c * 2 ^ kk : Int) : ℚ) * 2 ^ (L - 52) = (c : ℚ) := by
      push_cast
      rw [mul_assoc]
      rw [show ((2 : ℚ)) ^ (kk : ℕ) = (2 : ℚ) ^ ((kk : ℕ) : Int) from (zpow_natCast _ _).symm]
      rw [← zpow_add₀ (by norm_num : (2 : ℚ) ≠ 0)]
      rw [show ((kk : ℕ) : Int) + (L - 52) = 0 by omega]
      norm_num
    have hub : round64 q ≤ (c : ℚ) := by
      rw [round64, if_pos hq0]
      have hnear := round64Pos_nearest q (c * 2 ^ kk)
      rw [← hL] at hnear
      rw [hcmul] at hnear
      have h1 : |q - (c : ℚ)| = (c : ℚ) - q := by
        rw [abs_of_nonpos (by linarith)]
        ring
      rw [h1] at hnear
      have h2 : round64Pos q - q ≤ |q - round64Pos q| := by
        rw [abs_sub_comm]
        exact le_abs_self _
      linarith
    have hlb : (c : ℚ) - 1 < round64 q := by
      rw [round64, if_pos hq0]
      have habs := round64Pos_abs q
      rw [← hL] at habs
      have h1 : q - round64Pos q ≤ (2 : ℚ) ^ (L - 53) := le_of_abs_le habs
      rcases eq_or_lt_of_le hc1 with hc1e | hc2
      · have hsm : (2 : ℚ) ^ (L - 53) < (2 : ℚ) ^ L := by
          rw [zpow_lt_zpow_iff_right₀ (by norm_num : (1 : ℚ) < 2)]
          omega
        rw [← hc1e]
        push_cast
        linarith
      · have hL0 : 0 ≤ L := by
          have h2 : ((2 : ℚ)) ^ (0 : Int) ≤ q := by
            rw [zpow_zero]
            have h3 : (1 : ℚ) ≤ (c : ℚ) - 1 := by
              exact_mod_cast (by omega : (1 : Int) ≤ c - 1)
            linarith
          have h3 := (Int.zpow_le_iff_le_log (by norm_num : 1 < 2) hq0).mp h2
          rw [← hL] at h3
          omega
        have hint1 : (c - 1) * b + 1 ≤ a := by
          have h2 : ((c : ℚ) - 1) * (b : ℚ) < (a : ℚ) := by
            rw [hqdef] at hcq1
            calc ((c : ℚ) - 1) * (b : ℚ) < ((a : ℚ) / (b : ℚ)) * (b : ℚ) := by
                  exact mul_lt_mul_of_pos_right hcq1 hbq
              _ = (a : ℚ) := by field_simp
          have h3 : ((c - 1) * b : Int) < a := by exact_mod_cast h2
          omega
        have hqm : 1 / (b : ℚ) ≤ q - ((c : ℚ) - 1) := by
          have h2 : ((c - 1) * b + 1 : ℚ) ≤ (a : ℚ) := by exact_mod_cast hint1
          rw [hqdef]
          rw [div_sub' _ _ _ (ne_of_gt hbq), div_le_div_iff₀ hbq hbq]
          push_cast at h2 ⊢
          nlinarith
        have h2Llt : (2 : ℚ) ^ L < q := by
          rcases eq_or_lt_of_le h2L with h | h
          · exfalso
            apply hint
            refine ⟨2 ^ L.toNat, ?_⟩
            rw [← h]
            rw [show ((2 : ℚ)) ^ L = (2 : ℚ) ^ (L.toNat : Int) by rw [Int.toNat_of_nonneg hL0]]
            rw [zpow_natCast]
            push_cast
            ring
          · exact h
        have hbl : (b : ℚ) * (2 : ℚ) ^ L < (2 : ℚ) ^ (53 : Int) := by
          calc (b : ℚ) * (2 : ℚ) ^ L < (b : ℚ) * q := by
                exact mul_lt_mul_of_pos_left h2Llt hbq
            _ = (a : ℚ) := by rw [hqdef]; field_simp
            _ ≤ ((2 ^ 53 : Int) : ℚ) := by exact_mod_cast ha
            _ = (2 : ℚ) ^ (53 : Int) := by push_cast; norm_num
        have hsmall : (2 : ℚ) ^ (L - 53) < 1 / (b : ℚ) := by
          rw [zpow_sub₀ (by norm_num : (2 : ℚ) ≠ 0)]
          rw [div_lt_div_iff₀ (by positivity) hbq]
          calc (2 : ℚ) ^ L * (b : ℚ) = (b : ℚ) * (2 : ℚ) ^ L := by ring
            _ < (2 : ℚ) ^ (53 : Int) := hbl
            _ = 1 * (2 : ℚ) ^ (53 : Int) := by ring
        linarith
    have hfin : ⌈round64 q⌉ = c := by
      rw [Int.ceil_eq_iff]
      exact ⟨hlb, hub⟩
    rw [hfin, hc]

/-- The whole `int(math.Ceil(float64(total)/float64(pageSize)))`
pipeline yields the exact ceiling whenever both operands are within
binary64's exact integer range. -/
theorem calculateTotalPages_eq_ceil (total pageSize : Int) (h0 : 0 ≤ total)
    (h53 : total ≤ 2 ^ 53) (hp1 : 1 ≤ pageSize) (hp53 : pageSize ≤ 2 ^ 53) :
    CalculateTotalPages total pageSize = ⌈(total : ℚ) / (pageSize : ℚ)⌉ := by
  unfold CalculateTotalPages toFloat64 fdiv64 mathCeil floatToInt
  rw [round64_intCast total h0 h53, round64_intCast pageSize (by omega) hp53]
  rw [ceil_round64_div total pageSize h0 h53 hp1]
  have hc0 : 0 ≤ ⌈(total : ℚ) / (pageSize : ℚ)⌉ := by
    apply Int.ceil_nonneg
    apply div_nonneg
    · exact_mod_cast h0
    · exact_mod_cast (by omega : (0 : Int) ≤ pageSize)
  rw [if_pos (by exact_mod_cast hc0)]
  exact Int.floor_intCast _

/-- Within the exact range, `CalculateTotalPages total pageSize` is the
least integer `n` with `total ≤ n * pageSize`. -/
theorem calculateTotalPages_least (total pageSize : Int) (h0 : 0 ≤ total)
    (h53 : total ≤ 2 ^ 53) (hp1 : 1 ≤ pageSize) (hp53 : pageSize ≤ 2 ^ 53) :
    total ≤ CalculateTotalPages total pageSize * pageSize ∧
    ∀ n : Int, total ≤ n * pageSize → CalculateTotalPages total pageSize ≤ n := by
  rw [calculateTotalPages_eq_ceil total pageSize h0 h53 hp1 hp53]
  have hq : (0 : ℚ) < (pageSize : ℚ) := by exact_mod_cast (by omega : (0 : Int) < pageSize)
  constructor
  · have hle : (total : ℚ) / (pageSize : ℚ) ≤ (⌈(total : ℚ) / (pageSize : ℚ)⌉ : ℚ) :=
      Int.le_ceil _
    have := (div_le_iff₀ hq).mp hle
    exact_mod_cast this
  · intro n hn
    have hnq : (total : ℚ) ≤ (n : ℚ) * (pageSize : ℚ) := by exact_mod_cast hn
    have : (total : ℚ) / (pageSize : ℚ) ≤ (n : ℚ) := (div_le_iff₀ hq).mpr hnq
    exact Int.ceil_le.mpr this

/-- `float64(2^53 + 1)` rounds down to `2^53`: the scaled mantissa
`2^52 + 1/2` is a tie, and ties go to the even `2^52`. -/
theorem round64_first_unrepresentable :
    round64 (((2 ^ 53 + 1 : Int)) : ℚ) = ((2 ^ 53 : Int) : ℚ) := by
  have hq0 : (0 : ℚ) < ((2 ^ 53 + 1 : Int) : ℚ) := by positivity
  have hlog : Int.log 2 (((2 ^ 53 + 1 : Int)) : ℚ) = 53 := by
    have hlow : ((2 : ℚ)) ^ (53 : Int) ≤ ((2 ^ 53 + 1 : Int) : ℚ) := by push_cast; norm_num
    have hhigh : ((2 ^ 53 + 1 : Int) : ℚ) < (2 : ℚ) ^ (54 : Int) := by push_cast; norm_num
    have h1 := (Int.zpow_le_iff_le_log (by norm_num : 1 < 2) hq0).mp hlow
    have h2 := (Int.lt_zpow_iff_log_lt (by norm_num : 1 < 2) hq0).mp hhigh
    omega
  rw [round64, if_pos hq0]
  unfold round64Pos
  rw [hlog]
  have hdiv : ((2 ^ 53 + 1 : Int) : ℚ) / 2 ^ ((53 : Int) - 52) = ((2 ^ 52 : Int) : ℚ) + 1 / 2 := by
    push_cast
    norm_num
  rw [hdiv]
  have hfl : ⌊((2 ^ 52 : Int) : ℚ) + 1 / 2⌋ = 2 ^ 52 := by
    rw [Int.floor_eq_iff]
    constructor
    · push_cast; linarith
    · push_cast; linarith
  have hrhe : rhe (((2 ^ 52 : Int) : ℚ) + 1 / 2) = 2 ^ 52 := by
    unfold rhe
    rw [hfl]
    rw [if_neg (by push_cast; norm_num), if_neg (by push_cast; norm_num),
      if_pos (by decide)]
  rw [hrhe]
  push_cast
  norm_num

/-- At `total = 2^53 + 1`, `pageSize = 1`, the program computes
`2^53`, one less than the exact ceiling. -/
theorem calculateTotalPages_first_error :
    CalculateTotalPages (2 ^ 53 + 1) 1 = 2 ^ 53 := by
  unfold CalculateTotalPages toFloat64 fdiv64 mathCeil floatToInt
  rw [round64_first_unrepresentable, round64_intCast 1 (by norm_num) (by norm_num)]
  have hdiv1 : ((2 ^ 53 : Int) : ℚ) / ((1 : Int) : ℚ) = ((2 ^ 53 : Int) : ℚ) := by
    push_cast
    norm_num
  rw [hdiv1, round64_intCast (2 ^ 53) (by norm_num) (le_refl _), Int.ceil_intCast]
  rw [if_pos (by positivity)]
  exact Int.floor_intCast _

/-- C1 counterexample: at `total = 2^53 + 1`, `pageSize = 1`,
`page = 1`, the float64 rounding inside
`int(math.Ceil(float64(total)/float64(pageSize)))` returns `2^53`
while the ceiling of `total / pageSize` is `2^53 + 1`, so the claimed
`TotalPages = ceil(total/pageSize)` fails. -/
theorem C1_counterexample :
    (CreatePaginationMeta (2 ^ 53 + 1) 1 1).totalPages = 2 ^ 53 ∧
    ⌈(((2 ^ 53 + 1 : Int)) : ℚ) / ((1 : Int) : ℚ)⌉ = 2 ^ 53 + 1 ∧
    (CreatePaginationMeta (2 ^ 53 + 1) 1 1).totalPages ≠
      ⌈(((2 ^ 53 + 1 : Int)) : ℚ) / ((1 : Int) : ℚ)⌉ := by
  have hceil : ⌈(((2 ^ 53 + 1 : Int)) : ℚ) / ((1 : Int) : ℚ)⌉ = 2 ^ 53 + 1 := by
    rw [show ((1 : Int) : ℚ) = 1 by norm_num, div_one, Int.ceil_intCast]
  have htp : (CreatePaginationMeta (2 ^ 53 + 1) 1 1).totalPages = 2 ^ 53 :=
    calculateTotalPages_first_error
  refine ⟨htp, hceil, ?_⟩
  rw [htp, hceil]
  omega

/-- C1 (amended): for `0 ≤ total ≤ 2^53`, `1 ≤ pageSize ≤ 2^53` and
`page ≥ 1` (the range where `float64` represents both operands
exactly and the rounded division cannot cross an integer), the
metadata of both `Paginated` and `CreatePaginationMeta` has
`TotalPages` equal to the ceiling of `total / pageSize` (equivalently,
the least `n` with `total ≤ n * pageSize`), `HasNext` true exactly
when `page < TotalPages`, and `HasPrev` true exactly when `page > 1`;
beyond `2^53` the float64 rounding can drop below the exact ceiling. -/
theorem C1_pagination_math (total page pageSize : Int)
    (htotal : 0 ≤ total) (htotal53 : total ≤ 2 ^ 53)
    (hps : 1 ≤ pageSize) (hps53 : pageSize ≤ 2 ^ 53) (_hp : 1 ≤ page) :
    (CreatePaginationMeta total page pageSize).totalPages
      = ⌈(total : ℚ) / (pageSize : ℚ)⌉ ∧
    total ≤ (CreatePaginationMeta total page pageSize).totalPages * pageSize ∧
    (∀ n : Int, total ≤ n * pageSize →
      (CreatePaginationMeta total page pageSize).totalPages ≤ n) ∧
    ((CreatePaginationMeta total page pageSize).hasNext = true ↔
      page < (CreatePaginationMeta total page pageSize).totalPages) ∧
    ((CreatePaginationMeta total page pageSize).hasPrev = true ↔ 1 < page) ∧
    (Paginated total page pageSize).2.totalPages = ⌈(total : ℚ) / (pageSize : ℚ)⌉ ∧
    ((Paginated total page pageSize).2.hasNext = true ↔
      page < (Paginated total page pageSize).2.totalPages) ∧
    ((Paginated total page pageSize).2.hasPrev = true ↔ 1 < page) := by
  obtain ⟨hle, hleast⟩ := calculateTotalPages_least total pageSize htotal htotal53 hps hps53
  have hceil := calculateTotalPages_eq_ceil total pageSize htotal htotal53 hps hps53
  refine ⟨hceil, hle, hleast, ?_, ?_, hceil, ?_, ?_⟩ <;>
    simp [CreatePaginationMeta, Paginated]

/-- C1 witness: 10 records at page size 3 give 4 total pages; page 2
has both a next and a previous page. -/
theorem C1_witness :
    (0 : Int) ≤ 10 ∧ (10 : Int) ≤ 2 ^ 53 ∧ (1 : Int) ≤ 3 ∧ (3 : Int) ≤ 2 ^ 53 ∧
    (1 : Int) ≤ 2 ∧
    ((CreatePaginationMeta 10 2 3).totalPages = ⌈((10 : Int) : ℚ) / ((3 : Int) : ℚ)⌉ ∧
     (10 : Int) ≤ (CreatePaginationMeta 10 2 3).totalPages * 3 ∧
     (∀ n : Int, 10 ≤ n * 3 → (CreatePaginationMeta 10 2 3).totalPages ≤ n) ∧
     ((CreatePaginationMeta 10 2 3).hasNext = true ↔
       (2 : Int) < (CreatePaginationMeta 10 2 3).totalPages) ∧
     ((CreatePaginationMeta 10 2 3).hasPrev = true ↔ (1 : Int) < 2) ∧
     (Paginated 10 2 3).2.totalPages = ⌈((10 : Int) : ℚ) / ((3 : Int) : ℚ)⌉ ∧
     ((Paginated 10 2 3).2.hasNext = true ↔ (2 : Int) < (Paginated 10 2 3).2.totalPages) ∧
     ((Paginated 10 2 3).2.hasPrev = true ↔ (1 : Int) < 2)) :=
  ⟨by decide, by decide, by decide, by decide, by decide,
    C1_pagination_math 10 2 3 (by decide) (by decide) (by decide) (by decide) (by decide)⟩

/-- `valFrom` on a cons: one decimal step. -/
theorem valFrom_cons (n : Nat) (c : Char) (cs : List Char) :
    valFrom n (c :: cs) = valFrom (n * 10 + digitVal c) cs := rfl

/-- Decimal accumulation never decreases below its starting value. -/
theorem le_valFrom (cs : List Char) (n : Nat) : n ≤ valFrom n cs := by
  induction cs generalizing n with
  | nil => exact Nat.le_refl n
  | cons c cs ih =>
    rw [valFrom_cons]
    exact le_trans (by omega) (ih (n * 10 + digitVal c))

/-- A digit character has code point between 48 and 57. -/
theorem digit_bounds (c : Char) (h : c.isDigit = true) : 48 ≤ c.toNat ∧ c.toNat ≤ 57 := by
  simp only [Char.isDigit, Bool.and_eq_true, decide_eq_true_eq] at h
  obtain ⟨h1, h2⟩ := h
  have h1a := h1.le
  rw [UInt32.le_def, BitVec.le_def] at h1a h2
  exact ⟨h1a, h2⟩

/-- Numeric value of the `ParseUint` cutoff. -/
theorem goCutoff_eq : goCutoff = 1844674407370955162 := by
  norm_num [goCutoff, goMaxUint64]

/-- Numeric value of `maxUint64`. -/
theorem goMaxUint64_eq : goMaxUint64 = 18446744073709551615 := by
  norm_num [goMaxUint64]

/-- Correctness of the `ParseUint` digit loop: starting from an
accumulator within `uint64` range, it succeeds exactly on all-digit
input whose accumulated value stays within `uint64` range, returning
that exact value; the cutoff and wrap-around checks of the Go loop
implement precisely this range condition. -/
theorem puLoop_eq (cs : List Char) : ∀ n, n ≤ goMaxUint64 →
    puLoop cs n =
      if cs.all Char.isDigit ∧ valFrom n cs ≤ goMaxUint64 then some (valFrom n cs)
      else none := by
  induction cs with
  | nil =>
    intro n hn
    simp [puLoop, valFrom, hn]
  | cons c cs ih =>
    intro n hn
    rw [valFrom_cons]
    by_cases hdig : c.isDigit
    · have hd9 : digitVal c ≤ 9 := by
        have := digit_bounds c hdig
        unfold digitVal
        omega
      by_cases hcut : n ≥ goCutoff
      · have hge := le_valFrom cs (n * 10 + digitVal c)
        have hfalse : ¬ valFrom (n * 10 + digitVal c) cs ≤ goMaxUint64 := by
          rw [goMaxUint64_eq]
          rw [goCutoff_eq] at hcut
          omega
        simp only [puLoop, hdig, not_true_eq_false, if_false, ge_iff_le, hcut, if_true]
        simp [hfalse]
      · have hnm : n * 10 % 2 ^ 64 = n * 10 := by
          apply Nat.mod_eq_of_lt
          rw [goCutoff_eq] at hcut
          omega
        by_cases hov : n * 10 + digitVal c ≤ goMaxUint64
        · have hn1 : (n * 10 + digitVal c) % 2 ^ 64 = n * 10 + digitVal c := by
            apply Nat.mod_eq_of_lt
            rw [goMaxUint64_eq] at hov
            omega
          have hrec := ih (n * 10 + digitVal c) hov
          simp only [puLoop, hdig, not_true_eq_false, if_false]
          rw [if_neg hcut]
          simp only [hnm, hn1]
          rw [if_neg (by rw [goMaxUint64_eq] at hov ⊢; omega)]
          rw [hrec]
          simp [hdig]
        · have hup : n * 10 + digitVal c < 2 ^ 65 := by
            rw [goCutoff_eq] at hcut
            omega
          have hge := le_valFrom cs (n * 10 + digitVal c)
          simp only [puLoop, hdig, not_true_eq_false, if_false]
          rw [if_neg hcut]
          simp only [hnm]
          rw [if_pos (by
            rw [goMaxUint64_eq] at hov ⊢
            have h64 : (n * 10 + digitVal c) % 2 ^ 64 =
                if n * 10 + digitVal c < 2 ^ 64 then n * 10 + digitVal c
                else n * 10 + digitVal c - 2 ^ 64 := by
              split <;> omega
            omega)]
          have hfalse : ¬ valFrom (n * 10 + digitVal c) cs ≤ goMaxUint64 := by
            rw [goMaxUint64_eq] at hov ⊢
            omega
          simp [hfalse]
    · simp [puLoop, hdig]

/-- `strconv.Atoi` accepts exactly the syntactic decimal integers whose
value fits a signed 64-bit `int`, and returns their exact value. -/
theorem goAtoi_eq_decValue (s : String) :
    goAtoi s =
      match decValue s with
      | none => none
      | some v => if -(2 ^ 63) ≤ v ∧ v ≤ 2 ^ 63 - 1 then some v else none := by
  unfold goAtoi decValue
  rcases s.data with _ | ⟨c0, rest⟩
  · rfl
  · simp only
    by_cases hempty : (if c0 = '-' ∨ c0 = '+' then rest else c0 :: rest) = []
    · simp [hempty]
    · rw [if_neg hempty, if_neg hempty]
      set digits := if c0 = '-' ∨ c0 = '+' then rest else c0 :: rest with hdigits
      have h0max : 0 ≤ goMaxUint64 := by omega
      have hp := puLoop_eq digits 0 h0max
      have hval : valFrom 0 digits = digitsNatVal digits := rfl
      rw [hval] at hp
      by_cases hall : digits.all Char.isDigit
      · by_cases hle : digitsNatVal digits ≤ goMaxUint64
        · rw [hp, if_pos ⟨hall, hle⟩, if_pos hall]
          rw [goMaxUint64_eq] at hle
          by_cases hneg : c0 = '-'
          · simp only [hneg, eq_self_iff_true, not_true_eq_false, false_and, if_false,
              true_and, if_true]
            by_cases hover : digitsNatVal digits > 2 ^ 63
            · rw [if_pos hover, if_neg (by push_cast; omega)]
            · rw [if_neg hover, if_pos (by push_cast; omega)]
          · simp only [hneg, not_false_eq_true, true_and, false_and, if_false]
            by_cases hover : digitsNatVal digits ≥ 2 ^ 63
            · rw [if_pos hover, if_neg (by push_cast; omega)]
            · rw [if_neg hover, if_pos (by push_cast; omega)]
        · rw [hp, if_neg (fun hc => hle hc.2), if_pos hall]
          rw [goMaxUint64_eq] at hle
          by_cases hneg : c0 = '-'
          · simp only [hneg, eq_self_iff_true, if_true]
            rw [if_neg (by push_cast; omega)]
          · simp only [hneg, if_false]
            rw [if_neg (by push_cast; omega)]
      · rw [hp, if_neg (fun hc => hall hc.1), if_neg hall]

/-- `strconv.Atoi` fails exactly when the string is not a decimal
integer fitting a signed 64-bit `int`. -/
theorem goAtoi_isNone_iff (s : String) :
    (goAtoi s).isNone = true ↔
      ¬ ∃ v, decValue s = some v ∧ -(2 ^ 63) ≤ v ∧ v ≤ 2 ^ 63 - 1 := by
  rw [goAtoi_eq_decValue]
  rcases h : decValue s with _ | v
  · simp
  · show (if -(2 ^ 63 : Int) ≤ v ∧ v ≤ 2 ^ 63 - 1 then some v else none).isNone = true ↔
        ¬∃ w, (some v : Option Int) = some w ∧ -(2 ^ 63) ≤ w ∧ w ≤ 2 ^ 63 - 1
    split_ifs with hrange
    · simp [hrange]
      omega
    · simp only [Option.isNone_none, true_iff]
      rintro ⟨w, hw, hr⟩
      rw [Option.some.inj hw] at hrange
      exact hrange hr

/-- C7 counterexample: a configuration whose port is the decimal
integer 99999999999999999999 (too large for 64-bit `int`) and whose
every other field passes its check is rejected by
`DatabaseConfig.Validate`, although none of the claimed error
conditions holds (the port is a non-empty all-digit decimal string). -/
theorem C7_counterexample :
    (databaseConfigValidate cfgPortOverflow).isSome = true ∧
    cfgPortOverflow.host ≠ "" ∧
    cfgPortOverflow.port ≠ "" ∧
    cfgPortOverflow.port.data.all Char.isDigit = true ∧
    decValue cfgPortOverflow.port = some 99999999999999999999 ∧
    cfgPortOverflow.user ≠ "" ∧
    cfgPortOverflow.password ≠ "" ∧
    cfgPortOverflow.databaseName ≠ "" ∧
    0 ≤ cfgPortOverflow.maxIdleConns ∧
    0 ≤ cfgPortOverflow.maxOpenConns ∧
    cfgPortOverflow.maxIdleConns ≤ cfgPortOverflow.maxOpenConns := by
  decide

/-- C7 (amended): `DatabaseConfig.Validate` returns an error if and
only if `Host`, `Port`, `User`, `Password` or `DatabaseName` is empty;
or `Port` is not a decimal integer representable in a signed 64-bit
`int`; or `MaxIdleConns` is negative; or `MaxOpenConns` is negative;
or `MaxOpenConns > 0` and `MaxIdleConns > MaxOpenConns`.  Otherwise it
returns nil.  (Being a pure function of the config, it mutates
nothing.) -/
theorem C7_database_config_validate (dc : DatabaseConfig) :
    (databaseConfigValidate dc).isSome = true ↔
      (dc.host = "" ∨ dc.port = "" ∨
        (¬ ∃ v, decValue dc.port = some v ∧ -(2 ^ 63) ≤ v ∧ v ≤ 2 ^ 63 - 1) ∨
        dc.user = "" ∨ dc.password = "" ∨ dc.databaseName = "" ∨
        dc.maxIdleConns < 0 ∨ dc.maxOpenConns < 0 ∨
        (0 < dc.maxOpenConns ∧ dc.maxOpenConns < dc.maxIdleConns)) := by
  have hport := goAtoi_isNone_iff dc.port
  unfold databaseConfigValidate
  split_ifs with h1 h2 h3 h4 h5 h6 h7 h8 h9 <;>
    simp_all [Option.isNone_iff_eq_none, Option.isSome]

/-- The 64-bit wrap is the identity on values already in signed 64-bit
range. -/
theorem wrap64_eq_self (z : Int) (h1 : -(2 ^ 63) ≤ z) (h2 : z < 2 ^ 63) :
    wrap64 z = z := by
  unfold wrap64
  omega

/-- C8 counterexample: for the query `page=9223372036854775807` (with
`page_size` defaulted to 10), the computed `Offset` is the wrapped
value -20, not `(Page - 1) * PageSize`. -/
theorem C8_counterexample :
    (GetPaginationParams [("page", "9223372036854775807")]).offset = -20 ∧
    (GetPaginationParams [("page", "9223372036854775807")]).offset ≠
      ((GetPaginationParams [("page", "9223372036854775807")]).page - 1) *
        (GetPaginationParams [("page", "9223372036854775807")]).pageSize := by
  decide

/-- C8 (amended): for every query, `GetPaginationParams` returns
`Page ≥ 1`, `1 ≤ PageSize ≤ 100` and `Limit = PageSize`, and
`Offset` is `(Page - 1) * PageSize` computed in wrapping 64-bit `int`
arithmetic — equal to the exact product whenever that product is below
`2^63` (it cannot overflow below, being non-negative). -/
theorem C8_pagination_params (query : List (String × String)) :
    1 ≤ (GetPaginationParams query).page ∧
    1 ≤ (GetPaginationParams query).pageSize ∧
    (GetPaginationParams query).pageSize ≤ 100 ∧
    (GetPaginationParams query).limit = (GetPaginationParams query).pageSize ∧
    (GetPaginationParams query).offset =
      wrap64 (((GetPaginationParams query).page - 1) *
        (GetPaginationParams query).pageSize) ∧
    (((GetPaginationParams query).page - 1) * (GetPaginationParams query).pageSize < 2 ^ 63 →
      (GetPaginationParams query).offset =
        ((GetPaginationParams query).page - 1) * (GetPaginationParams query).pageSize) := by
  unfold GetPaginationParams
  simp only [DefaultPage, DefaultPageSize, MaxPageSize]
  set page0 := getIntParam query "page" 1 with hpage0
  set pageSize0 := getIntParam query "page_size" 10 with hpageSize0
  set page := if page0 < 1 then 1 else page0 with hpage
  set pageSize1 := if pageSize0 < 1 then 10 else pageSize0 with hpageSize1
  set pageSize := if pageSize1 > 100 then 100 else pageSize1 with hpageSize
  have hpageGe : 1 ≤ page := by
    rw [hpage]
    split <;> omega
  have hpsGe : 1 ≤ pageSize := by
    rw [hpageSize, hpageSize1]
    split
    · omega
    · split <;> omega
  have hpsLe : pageSize ≤ 100 := by
    rw [hpageSize]
    split <;> omega
  refine ⟨hpageGe, hpsGe, hpsLe, by trivial, by trivial, ?_⟩
  intro hsmall
  apply wrap64_eq_self
  · have : 0 ≤ (page - 1) * pageSize := by
      apply mul_nonneg <;> omega
    omega
  · exact hsmall

/-- C8 witness: the empty query yields page 1, page size 10, offset 0. -/
theorem C8_witness :
    1 ≤ (GetPaginationParams []).page ∧
    (GetPaginationParams []).offset = 0 :=
  ⟨(C8_pagination_params []).1, by decide⟩

/-- C9 witness: a degraded check beside a healthy one yields overall
status degraded with HTTP 200. -/
theorem C9_witness :
    (handleHealthCheck [⟨"database", "degraded"⟩, ⟨"memory", "healthy"⟩] true).1 =
      (if [HealthCheck.mk "database" "degraded", HealthCheck.mk "memory" "healthy"].any
          (fun c => decide (c.status = "unhealthy")) then "unhealthy"
       else if [HealthCheck.mk "database" "degraded", HealthCheck.mk "memory" "healthy"].any
          (fun c => decide (c.status = "degraded")) then "degraded"
       else "healthy") ∧
    (handleHealthCheck [⟨"database", "degraded"⟩, ⟨"memory", "healthy"⟩] true).1 = "degraded" ∧
    (handleHealthCheck [⟨"database", "degraded"⟩, ⟨"memory", "healthy"⟩] true).2 = 200 :=
  ⟨(C9_detailed_health_status [⟨"database", "degraded"⟩, ⟨"memory", "healthy"⟩]).1,
    by decide, by decide⟩

end MicroCommons
